import Mathlib

/-!
Shallow embedding of src/diff.py (felixthewhale/diff_patch).

A directory tree is one level of named entries, as seen by os.scandir;
an `Entry.dir` keeps its children only so that theorems can state that
`diff` never looks below the top level (scan_dir lists a single
directory and diff never recurses).  File contents are byte lists.
Python file handles are modelled by explicit chunk/rest/position state;
the two read loops of the source are translated with a fuel argument
that strictly dominates their iteration count (every continuing
iteration consumes at least one byte of the corresponding stream), so
the fuel-exhaustion branch is unreachable for the fuel supplied by the
wrappers.  Filesystem effects of the applier are recorded as an event
trace; errors raised by Python (missing file on open, os.rmdir on a
non-empty directory) are modelled with `Except`.
-/

namespace DiffPatch

/-- BLOCK_SIZE from src/diff.py line 13. -/
def BLOCK_SIZE : Nat := 8

/-- File contents as a list of byte values. -/
abbrev Bytes := List Nat

/-- One filesystem entry.  `symlinkFile` is a symbolic link that resolves
to a regular file whose content is `resolved` (os.path.islink = True,
os.path.isfile = True, and open() reads the resolved content);
`symlinkDir` resolves to a directory; `other` is an entry that is
neither a file nor a directory nor a link (FIFO, device node, ...),
which os.scandir classification skips. -/
inductive Entry : Type
  | file (content : Bytes)
  | dir (children : List (String × Entry))
  | symlinkFile (resolved : Bytes)
  | symlinkDir
  | other

/-- A directory: one level of uniquely named entries. -/
abbrev Tree := List (String × Entry)

/-- os.path.isdir / DirEntry.is_dir (follows symlinks). -/
def entryIsDir : Entry → Bool
  | .dir _ => true
  | .symlinkDir => true
  | _ => false

/-- os.path.isfile / DirEntry.is_file (follows symlinks). -/
def entryIsFile : Entry → Bool
  | .file _ => true
  | .symlinkFile _ => true
  | _ => false

/-- os.path.islink. -/
def entryIsLink : Entry → Bool
  | .symlinkFile _ => true
  | .symlinkDir => true
  | _ => false

/-- Content delivered by open(path) followed by read(): regular files
give their content, file symlinks the resolved content; opening a
directory or special entry raises, modelled as `none`. -/
def entryReadBytes : Entry → Option Bytes
  | .file c => some c
  | .symlinkFile c => some c
  | _ => none

/-- Reading a file in text mode, as the symlink branches of diff do with
open(file_path) and f.read(); bytes are decoded one character per byte. -/
def bytesToString (b : Bytes) : String :=
  String.mk (b.map Char.ofNat)

/-- OperationType from src/diff.py lines 16-21. -/
inductive OperationType : Type
  | DATA
  | BLOCK_RANGE
  | SYMLINK
  | DELETE
  | MKDIR
  deriving DecidableEq

/-- Operation from src/diff.py lines 23-30: a flat record whose unused
fields keep their constructor defaults (0, empty data, empty path). -/
structure Operation : Type where
  op_type : OperationType
  file_index : Nat
  block_index : Nat
  block_span : Nat
  data : Bytes
  target_path : String
  deriving DecidableEq

/-- Operation(OperationType.DATA, data=d, target_path=p). -/
def mkData (d : Bytes) (p : String) : Operation :=
  ⟨.DATA, 0, 0, 0, d, p⟩

/-- Operation(OperationType.BLOCK_RANGE, block_index=bi, block_span=bs, target_path=p). -/
def mkBlockRange (bi bs : Nat) (p : String) : Operation :=
  ⟨.BLOCK_RANGE, 0, bi, bs, [], p⟩

/-- Operation(OperationType.SYMLINK, target_path=s); the source stores the
text read through the link in target_path (src/diff.py lines 166-168, 186-188). -/
def mkSymlink (s : String) : Operation :=
  ⟨.SYMLINK, 0, 0, 0, [], s⟩

/-- Operation(OperationType.DELETE, target_path=p). -/
def mkDelete (p : String) : Operation :=
  ⟨.DELETE, 0, 0, 0, [], p⟩

/-- Operation(OperationType.MKDIR, target_path=p). -/
def mkMkdir (p : String) : Operation :=
  ⟨.MKDIR, 0, 0, 0, [], p⟩

/-- Patch from src/diff.py lines 32-38.  The Python deleted_files and
extra_files are sets with unspecified iteration order; they are
determinised here as lists in directory-scan order. -/
structure Patch : Type where
  old_dirs : List String
  new_dirs : List String
  deleted_files : List String
  extra_files : List String
  operations : List Operation

/-- scan_dir from src/diff.py lines 226-234: one directory level, dirs
and files listed separately, every entry that is neither a directory
nor a file silently skipped. -/
def scan_dir : Tree → List String × List String
  | [] => ([], [])
  | (n, e) :: t =>
      let r := scan_dir t
      if entryIsDir e then (n :: r.1, r.2)
      else if entryIsFile e then (r.1, n :: r.2)
      else r

/-- First entry of the directory with the given name, as path lookup. -/
def lookup : Tree → String → Option Entry
  | [], _ => none
  | (n, e) :: t, f => if n = f then some e else lookup t f

/-- find_next_matching_block from src/diff.py lines 281-287: scan the
new file from its current position one BLOCK_SIZE chunk at a time until
a chunk equals old_chunk; return that chunk together with the remaining
stream and the position after reading it, or none at end of file.  The
fuel dominates the chunk count; each continuing step consumes at least
one byte, so callers pass length + 1 and never hit exhaustion. -/
def find_next_matching_block (old_chunk : Bytes) :
    Nat → Bytes → Nat → Option (Bytes × Bytes × Nat)
  | 0, _, _ => none
  | fuel + 1, new_rest, pos =>
      let chunk := new_rest.take BLOCK_SIZE
      if chunk = [] then none
      else if chunk = old_chunk then
        some (chunk, new_rest.drop BLOCK_SIZE, pos + chunk.length)
      else
        find_next_matching_block old_chunk fuel (new_rest.drop BLOCK_SIZE)
          (pos + chunk.length)

/-- The common-file loop of diff, src/diff.py lines 196-221.  State:
the chunks just read from both files, the remaining streams, and the
new file position (bytes consumed so far).  On equal chunks nothing is
emitted and both streams advance; on a mismatch the next aligned
matching chunk is searched in the new file: if found, a BLOCK_RANGE is
appended with block_index = new_file.tell() // BLOCK_SIZE - 1 (Python
int subtraction; at every reachable match the position is at least
BLOCK_SIZE + 1, so Nat subtraction agrees) and block_span =
len(matching_block) // BLOCK_SIZE, then line 211 reads one further
chunk whose value is immediately overwritten but whose read still
advances the stream; if not found, a DATA operation carrying only the
current new chunk is appended and the loop breaks.  On normal exit with
the old file exhausted and a new chunk pending, a DATA operation with
just that chunk is appended (the while-else at lines 218-221). -/
def diff_file_loop (fname : String) :
    Nat → Bytes → Bytes → Bytes → Bytes → Nat → List Operation
  | 0, _, _, _, _, _ => []
  | fuel + 1, old_chunk, new_chunk, old_rest, new_rest, pos =>
      if old_chunk = [] ∨ new_chunk = [] then
        if old_chunk = [] ∧ new_chunk ≠ [] then [mkData new_chunk fname] else []
      else if old_chunk = new_chunk then
        diff_file_loop fname fuel (old_rest.take BLOCK_SIZE)
          (new_rest.take BLOCK_SIZE) (old_rest.drop BLOCK_SIZE)
          (new_rest.drop BLOCK_SIZE) (pos + (new_rest.take BLOCK_SIZE).length)
      else
        match find_next_matching_block old_chunk (new_rest.length + 1) new_rest pos with
        | some (mb, rest1, pos1) =>
            let rest2 := rest1.drop BLOCK_SIZE
            let pos2 := pos1 + (rest1.take BLOCK_SIZE).length
            mkBlockRange (pos1 / BLOCK_SIZE - 1) (mb.length / BLOCK_SIZE) fname ::
              diff_file_loop fname fuel (old_rest.take BLOCK_SIZE)
                (rest2.take BLOCK_SIZE) (old_rest.drop BLOCK_SIZE)
                (rest2.drop BLOCK_SIZE) (pos2 + (rest2.take BLOCK_SIZE).length)
        | none => [mkData new_chunk fname]

/-- Operations emitted by diff for one regular file present in both
trees (src/diff.py lines 194-221): the loop above started after the
initial BLOCK_SIZE reads of both files.  Every continuing iteration
consumes at least one byte of the old stream, so the fuel supplied
here strictly exceeds the number of iterations. -/
def diff_common_file (fname : String) (old_content new_content : Bytes) :
    List Operation :=
  diff_file_loop fname (old_content.length + new_content.length + 1)
    (old_content.take BLOCK_SIZE) (new_content.take BLOCK_SIZE)
    (old_content.drop BLOCK_SIZE) (new_content.drop BLOCK_SIZE)
    ((new_content.take BLOCK_SIZE).length)

/-- Operations emitted for one extra file (src/diff.py lines 162-177):
a symlink becomes a SYMLINK operation whose target_path is the text
read through the link, a directory a MKDIR, and a regular file a DATA
operation with the whole content.  The none branches correspond to
opens that raise, unreachable for names taken from the files list. -/
def extra_entry_ops (f : String) : Option Entry → List Operation
  | some e =>
      if entryIsLink e then
        match entryReadBytes e with
        | some c => [mkSymlink (bytesToString c)]
        | none => []
      else if entryIsDir e then [mkMkdir f]
      else
        match entryReadBytes e with
        | some c => [mkData c f]
        | none => []
  | none => []

/-- Operations emitted for one common file name (src/diff.py lines
181-221): if either side is a symlink, a single SYMLINK operation with
the text read from the new side; if either side is a directory, a
MKDIR; otherwise the chunk-compare loop over both contents. -/
def common_entry_ops (f : String) : Option Entry → Option Entry → List Operation
  | some eo, some en =>
      if entryIsLink eo || entryIsLink en then
        match entryReadBytes en with
        | some c => [mkSymlink (bytesToString c)]
        | none => []
      else if entryIsDir eo || entryIsDir en then [mkMkdir f]
      else
        match entryReadBytes eo, entryReadBytes en with
        | some co, some cn => diff_common_file f co cn
        | _, _ => []
  | _, _ => []

/-- deleted_files = set(old_files) - set(new_files), src/diff.py line
151, determinised in old-scan order. -/
def deleted_of (old_dir new_dir : Tree) : List String :=
  (scan_dir old_dir).2.filter (fun f => !(decide (f ∈ (scan_dir new_dir).2)))

/-- extra_files = set(new_files) - set(old_files), src/diff.py line 152. -/
def extra_of (old_dir new_dir : Tree) : List String :=
  (scan_dir new_dir).2.filter (fun f => !(decide (f ∈ (scan_dir old_dir).2)))

/-- common_files = set(old_files) & set(new_files), src/diff.py line 180. -/
def common_of (old_dir new_dir : Tree) : List String :=
  (scan_dir old_dir).2.filter (fun f => decide (f ∈ (scan_dir new_dir).2))

/-- The operation list built by diff, src/diff.py lines 154-221: DELETE
operations for deleted files, then full operations for extra files,
then per-file operations for common files. -/
def ops_of (old_dir new_dir : Tree) : List Operation :=
  (deleted_of old_dir new_dir).map mkDelete
    ++ (extra_of old_dir new_dir).flatMap (fun f => extra_entry_ops f (lookup new_dir f))
    ++ (common_of old_dir new_dir).flatMap
        (fun f => common_entry_ops f (lookup old_dir f) (lookup new_dir f))

/-- diff from src/diff.py lines 145-223. -/
def diff (old_dir new_dir : Tree) : Patch :=
  ⟨(scan_dir old_dir).1, (scan_dir new_dir).1,
    deleted_of old_dir new_dir, extra_of old_dir new_dir,
    ops_of old_dir new_dir⟩

/-- Errors that the Python applier can raise: FileNotFoundError or
IsADirectoryError on opening an old file for a BLOCK_RANGE, and OSError
from os.rmdir on a non-empty directory.  There is no SourceMismatch
variant because the source defines none. -/
inductive ApplyErr : Type
  | openFailed (path : String)
  | rmdirFailed (path : String)
  deriving DecidableEq

/-- Observable filesystem actions of apply_patch, in program order:
tempfile.mkdtemp() (which places the staging directory in the system
temporary location, not necessarily on the target volume), directory
creation and file writes inside staging, removals of live-target
entries by delete_extra_files, shutil.rmtree(new_dir) and
shutil.move(staging_dir, new_dir). -/
inductive Event : Type
  | mkdtempSystemTmp
  | mkStagingDir (d : String)
  | writeStaging (p : String) (content : Bytes)
  | removeTarget (p : String)
  | rmtreeTarget
  | moveStagingToTarget
  deriving DecidableEq

/-- Staging directory contents: path to file bytes. -/
abbrev StagingFiles := List (String × Bytes)

/-- open(new_file_path, 'wb') followed by write: create or truncate. -/
def write_staging (st : StagingFiles) (p : String) (d : Bytes) : StagingFiles :=
  st.filter (fun q => !(q.1 == p)) ++ [(p, d)]

/-- open(old_file_path, 'rb') in apply_patch: fails when the path is
missing or not readable as a file. -/
def readBytesE (t : Tree) (p : String) : Except ApplyErr Bytes :=
  match lookup t p with
  | some e =>
      match entryReadBytes e with
      | some c => Except.ok c
      | none => Except.error (.openFailed p)
  | none => Except.error (.openFailed p)

/-- True exactly for the two operation kinds the applier writes output
for (src/diff.py lines 259-274). -/
def isContentOp (op : Operation) : Bool :=
  match op.op_type with
  | .DATA => true
  | .BLOCK_RANGE => true
  | _ => false

/-- One iteration of the operation loop in apply_patch (src/diff.py
lines 257-274).  DATA writes its payload; BLOCK_RANGE seeks the old
file to block_index * BLOCK_SIZE, reads block_span * BLOCK_SIZE bytes
(silently short when the file is shorter - there is no length check)
and writes whatever was read; every other kind does nothing. -/
def apply_operation (old_dir : Tree) (st : StagingFiles) (op : Operation) :
    Except ApplyErr (StagingFiles × List Event) :=
  match op.op_type with
  | .DATA =>
      Except.ok (write_staging st op.target_path op.data,
        [Event.writeStaging op.target_path op.data])
  | .BLOCK_RANGE =>
      match readBytesE old_dir op.target_path with
      | Except.ok c =>
          let d := (c.drop (op.block_index * BLOCK_SIZE)).take (op.block_span * BLOCK_SIZE)
          Except.ok (write_staging st op.target_path d,
            [Event.writeStaging op.target_path d])
      | Except.error e => Except.error e
  | _ => Except.ok (st, [])

/-- The operation loop of apply_patch: the first error aborts the run. -/
def apply_operations_list (old_dir : Tree) :
    List Operation → StagingFiles → Except ApplyErr (StagingFiles × List Event)
  | [], st => Except.ok (st, [])
  | op :: ops, st =>
      match apply_operation old_dir st op with
      | Except.ok (st', evs) =>
          match apply_operations_list old_dir ops st' with
          | Except.ok (st'', evs') => Except.ok (st'', evs ++ evs')
          | Except.error e => Except.error e
      | Except.error e => Except.error e

/-- Entries removed by the isfile-or-islink branch of
delete_extra_files (src/diff.py line 86): regular files and symlinks. -/
def entryRemovableAsFile : Entry → Bool
  | .file _ => true
  | .symlinkFile _ => true
  | .symlinkDir => true
  | _ => false

/-- os.remove / os.rmdir of one name: drops the entry from the level. -/
def removeName (t : Tree) (f : String) : Tree :=
  t.filter (fun p => !(p.1 == f))

/-- Whether delete_extra_files removes the given name from the live
target: files and symlinks via os.remove, empty directories via
os.rmdir; a non-empty directory makes os.rmdir raise, and a missing or
special entry is skipped. -/
def wouldRemove (t : Tree) (f : String) : Bool :=
  match lookup t f with
  | some (Entry.file _) => true
  | some (Entry.symlinkFile _) => true
  | some Entry.symlinkDir => true
  | some (Entry.dir children) => children.isEmpty
  | some Entry.other => false
  | none => false

/-- delete_extra_files from src/diff.py lines 82-89, run against the
live target directory: for each extra path, os.remove it when it is a
file or a symlink, os.rmdir it when it is a directory (raising on a
non-empty one), otherwise skip it.  Returns the removed paths in order
together with the mutated target level. -/
def delete_extra_files : List String → Tree → Except ApplyErr (List String × Tree)
  | [], t => Except.ok ([], t)
  | f :: fs, t =>
      let cont := fun (r : Except ApplyErr (List String × Tree)) =>
        match r with
        | Except.ok (rm, t') => Except.ok (f :: rm, t')
        | Except.error e => Except.error e
      match lookup t f with
      | some (Entry.file _) => cont (delete_extra_files fs (removeName t f))
      | some (Entry.symlinkFile _) => cont (delete_extra_files fs (removeName t f))
      | some Entry.symlinkDir => cont (delete_extra_files fs (removeName t f))
      | some (Entry.dir children) =>
          if children.isEmpty then cont (delete_extra_files fs (removeName t f))
          else Except.error (.rmdirFailed f)
      | some Entry.other => delete_extra_files fs t
      | none => delete_extra_files fs t

/-- Tree published by shutil.move(staging_dir, new_dir): the
directories created by create_missing_dirs (src/diff.py lines 55-58)
plus the files written by the operation loop. -/
def staging_tree (patch : Patch) (st : StagingFiles) : Tree :=
  patch.new_dirs.map (fun d => (d, Entry.dir []))
    ++ st.map (fun q => (q.1, Entry.file q.2))

/-- apply_patch from src/diff.py lines 247-279: make a staging
directory with tempfile.mkdtemp(), create the patch's new_dirs in it,
run the operation loop writing into staging, then delete the patch's
extra_files from the live target, shutil.rmtree the live target and
shutil.move the staging directory into its place.  Returns the event
trace and the published tree; any error propagates and aborts the rest
of the run. -/
def apply_patch (patch : Patch) (old_dir target_dir : Tree) :
    Except ApplyErr (List Event × Tree) :=
  match apply_operations_list old_dir patch.operations [] with
  | Except.error e => Except.error e
  | Except.ok (st, writes) =>
      match delete_extra_files patch.extra_files target_dir with
      | Except.error e => Except.error e
      | Except.ok (removed, _) =>
          Except.ok
            (Event.mkdtempSystemTmp ::
              (patch.new_dirs.map Event.mkStagingDir ++ writes
                ++ removed.map Event.removeTarget
                ++ [Event.rmtreeTarget, Event.moveStagingToTarget]),
             staging_tree patch st)

/-- The tree standing at the target path after apply_patch finishes. -/
def apply_patch_result (patch : Patch) (old_dir target_dir : Tree) :
    Except ApplyErr Tree :=
  (apply_patch patch old_dir target_dir).map Prod.snd

/-- Bytes one operation contributes to a file rebuilt from the old
content: DATA its payload, BLOCK_RANGE the referenced old slice,
anything else nothing. -/
def op_output (old_content : Bytes) (op : Operation) : Bytes :=
  match op.op_type with
  | .DATA => op.data
  | .BLOCK_RANGE =>
      (old_content.drop (op.block_index * BLOCK_SIZE)).take (op.block_span * BLOCK_SIZE)
  | _ => []

/-- Concatenation, in emission order, of the bytes produced by a list
of operations for one path. -/
def reconstruct (ops : List Operation) (old_content : Bytes) : Bytes :=
  (ops.map (op_output old_content)).flatten

/-- Replace the children of every directory entry; used to state that
diff never descends into subdirectories. -/
def setChildren (c : List (String × Entry)) : Entry → Entry
  | Entry.dir _ => Entry.dir c
  | e => e

/-- Apply setChildren across one directory level. -/
def mapChildren (c : List (String × Entry)) (t : Tree) : Tree :=
  t.map (fun p => (p.1, setChildren c p.2))

/-! Helper lemmas. -/

/-- The chunk loop over two identical streams emits nothing: the chunks
read are always equal, so only the skip branch runs until both streams
end, and the while-else clause finds the new chunk empty as well. -/
theorem diff_file_loop_self (fname : String) :
    ∀ (fuel : Nat) (c rest : Bytes) (pos : Nat),
      diff_file_loop fname fuel c c rest rest pos = [] := by
  intro fuel
  induction fuel with
  | zero => intro c rest pos; rfl
  | succ n ih =>
      intro c rest pos
      by_cases hc : c = []
      · simp [diff_file_loop, hc]
      · simp [diff_file_loop, hc, ih]

/-- diff emits no operation for a file whose content is unchanged. -/
theorem diff_common_file_self (fname : String) (c : Bytes) :
    diff_common_file fname c c = [] :=
  diff_file_loop_self fname _ _ _ _

/-- Every name in the files component of scan_dir names an entry. -/
theorem mem_scan_files_names :
    ∀ (t : Tree) (f : String), f ∈ (scan_dir t).2 → f ∈ t.map Prod.fst := by
  intro t
  induction t with
  | nil => intro f h; simp [scan_dir] at h
  | cons p t ih =>
      intro f h
      obtain ⟨n, e⟩ := p
      by_cases hd : entryIsDir e = true
      · simp only [scan_dir, hd, if_pos] at h
        simp only [List.map_cons, List.mem_cons]
        exact Or.inr (ih f h)
      · by_cases hf : entryIsFile e = true
        · simp only [scan_dir, hd, hf, if_pos, if_neg, Bool.false_eq_true,
            not_false_eq_true, List.mem_cons] at h
          rcases h with h | h
          · simp [h]
          · simp only [List.map_cons, List.mem_cons]
            exact Or.inr (ih f h)
        · simp only [scan_dir, hd, hf, Bool.false_eq_true, not_false_eq_true,
            if_neg] at h
          simp only [List.map_cons, List.mem_cons]
          exact Or.inr (ih f h)

/-- In a directory level with unique names, a name listed among the
files resolves by lookup to an entry that is a file or a file symlink. -/
theorem lookup_of_mem_files :
    ∀ (t : Tree), (t.map Prod.fst).Nodup →
      ∀ f, f ∈ (scan_dir t).2 →
        ∃ e, lookup t f = some e ∧ entryIsFile e = true ∧ (f, e) ∈ t := by
  intro t
  induction t with
  | nil => intro _ f h; simp [scan_dir] at h
  | cons p t ih =>
      intro hnd f h
      obtain ⟨n, e⟩ := p
      simp only [List.map_cons, List.nodup_cons] at hnd
      obtain ⟨hn, hnd'⟩ := hnd
      by_cases hd : entryIsDir e = true
      · simp only [scan_dir, hd, if_pos] at h
        have hne : n ≠ f := fun hnf => hn (hnf ▸ mem_scan_files_names t f h)
        obtain ⟨e', h1, h2, h3⟩ := ih hnd' f h
        exact ⟨e', by simp [lookup, hne, h1], h2, List.mem_cons_of_mem _ h3⟩
      · by_cases hf : entryIsFile e = true
        · simp only [scan_dir, hd, hf, Bool.false_eq_true, not_false_eq_true,
            if_neg, if_pos, List.mem_cons] at h
          rcases h with h | h
          · exact ⟨e, by simp [lookup, h], hf, by simp [h]⟩
          · have hne : n ≠ f := fun hnf => hn (hnf ▸ mem_scan_files_names t f h)
            obtain ⟨e', h1, h2, h3⟩ := ih hnd' f h
            exact ⟨e', by simp [lookup, hne, h1], h2, List.mem_cons_of_mem _ h3⟩
        · simp only [scan_dir, hd, hf, Bool.false_eq_true, not_false_eq_true,
            if_neg] at h
          have hne : n ≠ f := fun hnf => hn (hnf ▸ mem_scan_files_names t f h)
          obtain ⟨e', h1, h2, h3⟩ := ih hnd' f h
          exact ⟨e', by simp [lookup, hne, h1], h2, List.mem_cons_of_mem _ h3⟩

/-- Entry classification ignores directory children. -/
theorem entryIsDir_setChildren (c : List (String × Entry)) (e : Entry) :
    entryIsDir (setChildren c e) = entryIsDir e := by
  cases e <;> rfl

/-- File classification ignores directory children. -/
theorem entryIsFile_setChildren (c : List (String × Entry)) (e : Entry) :
    entryIsFile (setChildren c e) = entryIsFile e := by
  cases e <;> rfl

/-- Directory scanning ignores the children of subdirectories. -/
theorem scan_dir_mapChildren (c : List (String × Entry)) :
    ∀ t : Tree, scan_dir (mapChildren c t) = scan_dir t := by
  intro t
  induction t with
  | nil => rfl
  | cons p t ih =>
      obtain ⟨n, e⟩ := p
      show scan_dir ((n, setChildren c e) :: mapChildren c t) = _
      simp only [scan_dir, entryIsDir_setChildren, entryIsFile_setChildren, ih]

/-- Lookup commutes with replacing directory children. -/
theorem lookup_mapChildren (c : List (String × Entry)) :
    ∀ (t : Tree) (f : String),
      lookup (mapChildren c t) f = (lookup t f).map (setChildren c) := by
  intro t
  induction t with
  | nil => intro f; rfl
  | cons p t ih =>
      intro f
      obtain ⟨n, e⟩ := p
      by_cases hnf : n = f
      · simp [mapChildren, lookup, hnf]
      · show lookup ((n, setChildren c e) :: mapChildren c t) f = _
        simp [lookup, hnf, ih]

/-- The operations emitted for an extra path never read directory
children. -/
theorem extra_entry_ops_setChildren (f : String) (c : List (String × Entry)) :
    ∀ o : Option Entry,
      extra_entry_ops f (o.map (setChildren c)) = extra_entry_ops f o := by
  intro o
  cases o with
  | none => rfl
  | some e => cases e <;> rfl

/-- The operations emitted for a common path never read directory
children. -/
theorem common_entry_ops_setChildren (f : String)
    (c1 c2 : List (String × Entry)) :
    ∀ o1 o2 : Option Entry,
      common_entry_ops f (o1.map (setChildren c1)) (o2.map (setChildren c2))
        = common_entry_ops f o1 o2 := by
  intro o1 o2
  cases o1 with
  | none => cases o2 with
      | none => rfl
      | some e2 => cases e2 <;> rfl
  | some e1 => cases o2 with
      | none => cases e1 <;> rfl
      | some e2 => cases e1 <;> cases e2 <;> rfl

/-- The operation loop gives the same staging result, the same events
and the same error behaviour when operations of kinds other than DATA
and BLOCK_RANGE are dropped. -/
theorem apply_ops_filter_content (old_dir : Tree) :
    ∀ (ops : List Operation) (st : StagingFiles),
      apply_operations_list old_dir ops st
        = apply_operations_list old_dir (ops.filter isContentOp) st := by
  intro ops
  induction ops with
  | nil => intro st; rfl
  | cons op ops ih =>
      intro st
      cases hty : op.op_type
      case DATA =>
          simp only [apply_operations_list, apply_operation, hty,
            List.filter_cons, isContentOp, if_pos]
          rw [← ih]
      case BLOCK_RANGE =>
          simp only [apply_operations_list, apply_operation, hty,
            List.filter_cons, isContentOp, if_pos]
          cases hre : readBytesE old_dir op.target_path with
          | ok c => simp only [← ih]
          | error e => rfl
      case SYMLINK =>
          simp only [apply_operations_list, apply_operation, hty,
            List.filter_cons, isContentOp, Bool.false_eq_true, if_neg,
            not_false_eq_true]
          rw [ih]
          cases apply_operations_list old_dir (ops.filter isContentOp) st with
          | ok r => simp
          | error e => rfl
      case DELETE =>
          simp only [apply_operations_list, apply_operation, hty,
            List.filter_cons, isContentOp, Bool.false_eq_true, if_neg,
            not_false_eq_true]
          rw [ih]
          cases apply_operations_list old_dir (ops.filter isContentOp) st with
          | ok r => simp
          | error e => rfl
      case MKDIR =>
          simp only [apply_operations_list, apply_operation, hty,
            List.filter_cons, isContentOp, Bool.false_eq_true, if_neg,
            not_false_eq_true]
          rw [ih]
          cases apply_operations_list old_dir (ops.filter isContentOp) st with
          | ok r => simp
          | error e => rfl

/-- Removing one name does not change lookups of other names. -/
theorem lookup_removeName_ne :
    ∀ (t : Tree) (f g : String), g ≠ f →
      lookup (removeName t f) g = lookup t g := by
  intro t f g hgf
  induction t with
  | nil => rfl
  | cons p t ih =>
      obtain ⟨n, e⟩ := p
      by_cases hnf : n = f
      · have h1 : removeName ((n, e) :: t) f = removeName t f := by
          simp [removeName, List.filter_cons, hnf]
        have hng : ¬n = g := fun h => hgf (by rw [← h]; exact hnf)
        rw [h1, ih]
        simp [lookup, hng]
      · have h1 : removeName ((n, e) :: t) f = (n, e) :: removeName t f := by
          simp [removeName, List.filter_cons, hnf]
        rw [h1]
        by_cases hng : n = g
        · simp [lookup, hng]
        · simp [lookup, hng, ih]

/-- On a successful run over distinct extra paths, the removed paths
are exactly the extra paths that exist in the live target as a file, a
symlink or an empty directory. -/
theorem delete_extra_removed :
    ∀ (fs : List String) (t : Tree) (removed : List String) (t' : Tree),
      fs.Nodup → delete_extra_files fs t = Except.ok (removed, t') →
      removed = fs.filter (wouldRemove t) := by
  intro fs
  induction fs with
  | nil =>
      intro t removed t' _ h
      simp only [delete_extra_files, Except.ok.injEq, Prod.mk.injEq] at h
      simp [← h.1]
  | cons f fs ih =>
      intro t removed t' hnd h
      rw [List.nodup_cons] at hnd
      obtain ⟨hf, hnd'⟩ := hnd
      have hfilter : fs.filter (wouldRemove (removeName t f))
          = fs.filter (wouldRemove t) := by
        apply List.filter_congr
        intro g hg
        have hgf : g ≠ f := fun hgf => hf (hgf ▸ hg)
        unfold wouldRemove
        rw [lookup_removeName_ne t f g hgf]
      cases hl : lookup t f with
      | none =>
          simp only [delete_extra_files, hl] at h
          rw [ih t removed t' hnd' h, List.filter_cons]
          simp [wouldRemove, hl]
      | some e =>
          cases e with
          | file c =>
              simp only [delete_extra_files, hl] at h
              cases hrec : delete_extra_files fs (removeName t f) with
              | ok r =>
                  obtain ⟨rm, t2⟩ := r
                  rw [hrec] at h
                  simp only [Except.ok.injEq, Prod.mk.injEq] at h
                  rw [← h.1, ih (removeName t f) rm t2 hnd' hrec, hfilter,
                    List.filter_cons]
                  simp [wouldRemove, hl]
              | error err => rw [hrec] at h; simp at h
          | symlinkFile c =>
              simp only [delete_extra_files, hl] at h
              cases hrec : delete_extra_files fs (removeName t f) with
              | ok r =>
                  obtain ⟨rm, t2⟩ := r
                  rw [hrec] at h
                  simp only [Except.ok.injEq, Prod.mk.injEq] at h
                  rw [← h.1, ih (removeName t f) rm t2 hnd' hrec, hfilter,
                    List.filter_cons]
                  simp [wouldRemove, hl]
              | error err => rw [hrec] at h; simp at h
          | symlinkDir =>
              simp only [delete_extra_files, hl] at h
              cases hrec : delete_extra_files fs (removeName t f) with
              | ok r =>
                  obtain ⟨rm, t2⟩ := r
                  rw [hrec] at h
                  simp only [Except.ok.injEq, Prod.mk.injEq] at h
                  rw [← h.1, ih (removeName t f) rm t2 hnd' hrec, hfilter,
                    List.filter_cons]
                  simp [wouldRemove, hl]
              | error err => rw [hrec] at h; simp at h
          | dir children =>
              cases hch : children.isEmpty with
              | true =>
                  simp only [delete_extra_files, hl, hch, if_pos] at h
                  cases hrec : delete_extra_files fs (removeName t f) with
                  | ok r =>
                      obtain ⟨rm, t2⟩ := r
                      rw [hrec] at h
                      simp only [Except.ok.injEq, Prod.mk.injEq] at h
                      rw [← h.1, ih (removeName t f) rm t2 hnd' hrec, hfilter,
                        List.filter_cons]
                      simp [wouldRemove, hl, hch]
                  | error err => rw [hrec] at h; simp at h
              | false =>
                  simp only [delete_extra_files, hl, hch, Bool.false_eq_true,
                    not_false_eq_true, if_neg] at h
                  simp at h
          | other =>
              simp only [delete_extra_files, hl] at h
              rw [ih t removed t' hnd' h, List.filter_cons]
              simp [wouldRemove, hl]

/-- Every event produced by the operation loop is a staging write. -/
theorem apply_ops_events_writes (old_dir : Tree) :
    ∀ (ops : List Operation) (st st' : StagingFiles) (evs : List Event),
      apply_operations_list old_dir ops st = Except.ok (st', evs) →
      ∀ e ∈ evs, ∃ p d, e = Event.writeStaging p d := by
  intro ops
  induction ops with
  | nil =>
      intro st st' evs h e he
      simp only [apply_operations_list, Except.ok.injEq, Prod.mk.injEq] at h
      rw [← h.2] at he
      simp at he
  | cons op ops ih =>
      intro st st' evs h e he
      cases hty : op.op_type
      case DATA =>
          simp only [apply_operations_list, apply_operation, hty] at h
          cases hrec : apply_operations_list old_dir ops
              (write_staging st op.target_path op.data) with
          | ok r =>
              obtain ⟨st2, evs2⟩ := r
              rw [hrec] at h
              simp only [Except.ok.injEq, Prod.mk.injEq] at h
              rw [← h.2] at he
              rcases List.mem_append.mp he with h1 | h1
              · simp only [List.mem_singleton] at h1
                exact ⟨op.target_path, op.data, h1⟩
              · exact ih _ _ _ hrec e h1
          | error err => rw [hrec] at h; simp at h
      case BLOCK_RANGE =>
          simp only [apply_operations_list, apply_operation, hty] at h
          cases hre : readBytesE old_dir op.target_path with
          | ok c =>
              rw [hre] at h
              simp only at h
              cases hrec : apply_operations_list old_dir ops
                  (write_staging st op.target_path
                    ((c.drop (op.block_index * BLOCK_SIZE)).take
                      (op.block_span * BLOCK_SIZE))) with
              | ok r =>
                  obtain ⟨st2, evs2⟩ := r
                  rw [hrec] at h
                  simp only [Except.ok.injEq, Prod.mk.injEq] at h
                  rw [← h.2] at he
                  rcases List.mem_append.mp he with h1 | h1
                  · simp only [List.mem_singleton] at h1
                    exact ⟨op.target_path, _, h1⟩
                  · exact ih _ _ _ hrec e h1
              | error err => rw [hrec] at h; simp at h
          | error err => rw [hre] at h; simp at h
      case SYMLINK =>
          simp only [apply_operations_list, apply_operation, hty] at h
          cases hrec : apply_operations_list old_dir ops st with
          | ok r =>
              obtain ⟨st2, evs2⟩ := r
              rw [hrec] at h
              simp only [Except.ok.injEq, Prod.mk.injEq, List.nil_append] at h
              rw [← h.2] at he
              exact ih _ _ _ hrec e he
          | error err => rw [hrec] at h; simp at h
      case DELETE =>
          simp only [apply_operations_list, apply_operation, hty] at h
          cases hrec : apply_operations_list old_dir ops st with
          | ok r =>
              obtain ⟨st2, evs2⟩ := r
              rw [hrec] at h
              simp only [Except.ok.injEq, Prod.mk.injEq, List.nil_append] at h
              rw [← h.2] at he
              exact ih _ _ _ hrec e he
          | error err => rw [hrec] at h; simp at h
      case MKDIR =>
          simp only [apply_operations_list, apply_operation, hty] at h
          cases hrec : apply_operations_list old_dir ops st with
          | ok r =>
              obtain ⟨st2, evs2⟩ := r
              rw [hrec] at h
              simp only [Except.ok.injEq, Prod.mk.injEq, List.nil_append] at h
              rw [← h.2] at he
              exact ih _ _ _ hrec e he
          | error err => rw [hrec] at h; simp at h

/-! Claim theorems. -/

/-- C1.  The round-trip property fails on the code: for the one-file
tree T with "a" holding the eight bytes 1..8, diff(T, T) emits no
operation for the unchanged file (the common-file loop of src/diff.py
lines 196-221 emits nothing while chunks are equal), so
apply(diff(T, T), T, T) publishes an empty tree instead of a tree
byte-for-byte identical to T. -/
theorem apply_diff_roundtrip_fails_on_unchanged_file :
    apply_patch_result
        (diff [("a", Entry.file [1, 2, 3, 4, 5, 6, 7, 8])]
          [("a", Entry.file [1, 2, 3, 4, 5, 6, 7, 8])])
        [("a", Entry.file [1, 2, 3, 4, 5, 6, 7, 8])]
        [("a", Entry.file [1, 2, 3, 4, 5, 6, 7, 8])]
      = Except.ok []
    ∧ ([("a", Entry.file [1, 2, 3, 4, 5, 6, 7, 8])] : Tree) ≠ [] :=
  ⟨rfl, by simp⟩

/-- C2.  The code deletes and mutates the live target before the new
tree is in place: the trace of a successful apply run shows the
removeTarget and rmtreeTarget actions strictly before the
moveStagingToTarget action - a failure of the move after the rmtree
would leave no target tree, contradicting the claim that the old tree
is never deleted before the new tree is confirmed in place. -/
theorem apply_patch_removes_target_before_publish :
    apply_patch ⟨[], [], [], ["junk"], []⟩ [] [("junk", Entry.file [1])]
      = Except.ok ([Event.mkdtempSystemTmp, Event.removeTarget "junk",
          Event.rmtreeTarget, Event.moveStagingToTarget], []) :=
  rfl

/-- C3.  There is no SourceMismatch: against an old file "a" truncated
to the four bytes 9,9,9,9, a BlockRange(0, 1) operation asking for
BLOCK_SIZE = 8 bytes succeeds, silently writes the four truncated
bytes into staging and publishes them over the target. -/
theorem block_range_short_read_succeeds_silently :
    apply_patch ⟨[], [], [], [], [mkBlockRange 0 1 "a"]⟩
        [("a", Entry.file [9, 9, 9, 9])] []
      = Except.ok ([Event.mkdtempSystemTmp,
          Event.writeStaging "a" [9, 9, 9, 9],
          Event.rmtreeTarget, Event.moveStagingToTarget],
          [("a", Entry.file [9, 9, 9, 9])]) :=
  rfl

/-- C4.  The per-path operation list does not reconstruct the new
content: for a path whose bytes 1..8 are identical in both trees the
differ emits no operation at all, so the concatenation of the emitted
operations' output bytes is empty rather than the file's content. -/
theorem common_file_ops_do_not_reconstruct :
    diff_common_file "a" [1, 2, 3, 4, 5, 6, 7, 8] [1, 2, 3, 4, 5, 6, 7, 8] = []
    ∧ reconstruct
        (diff_common_file "a" [1, 2, 3, 4, 5, 6, 7, 8] [1, 2, 3, 4, 5, 6, 7, 8])
        [1, 2, 3, 4, 5, 6, 7, 8]
      ≠ [1, 2, 3, 4, 5, 6, 7, 8] := by
  decide

/-- C5.  Shift detection fails: prepending the byte 0 to a 16-byte
file produces one 8-byte Data operation and no BlockRange at all -
find_next_matching_block compares only block-aligned chunks of the new
stream and the unused RollingHash class is never consulted, so the
shifted content is not found. -/
theorem prepended_byte_yields_data_not_block_range :
    (diff [("f", Entry.file [1, 2, 3, 4, 5, 6, 7, 8, 9, 10, 11, 12, 13, 14, 15, 16])]
        [("f", Entry.file [0, 1, 2, 3, 4, 5, 6, 7, 8, 9, 10, 11, 12, 13, 14, 15, 16])]).operations
      = [mkData [0, 1, 2, 3, 4, 5, 6, 7] "f"]
    ∧ ((diff [("f", Entry.file [1, 2, 3, 4, 5, 6, 7, 8, 9, 10, 11, 12, 13, 14, 15, 16])]
        [("f", Entry.file [0, 1, 2, 3, 4, 5, 6, 7, 8, 9, 10, 11, 12, 13, 14, 15, 16])]).operations.all
          (fun op => op.op_type == OperationType.DATA)) = true := by
  decide

/-- C6.  Block reuse fails: for the file "f" of size K*B = 8 (K = 1)
with one byte 42 appended, the patch's operations for the file are a
single Data operation with the appended byte and no BlockRange(0, 1)
preceding it - the matching prefix produces no operation at all, so
apply reconstructs nothing of the original content. -/
theorem appended_bytes_yield_no_block_range :
    (diff [("f", Entry.file [1, 2, 3, 4, 5, 6, 7, 8])]
        [("f", Entry.file [1, 2, 3, 4, 5, 6, 7, 8, 42])]).operations
      = [mkData [42] "f"]
    ∧ ([mkData [42] "f"] : List Operation)
        ≠ [mkBlockRange 0 1 "f", mkData [42] "f"] := by
  decide

/-- C7 counterexample.  diff(T, T) is not a no-op for every tree: for
the tree holding one symlink "s" resolving to a file with byte 65, the
common-file branch sees islink and emits a SYMLINK operation (with the
text read through the link in target_path), so operations is not
empty. -/
theorem diff_self_symlink_not_noop :
    (diff [("s", Entry.symlinkFile [65])] [("s", Entry.symlinkFile [65])]).operations
      ≠ [] := by
  decide

/-- C7 amended.  For every directory tree with uniquely named entries
none of which is a symlink resolving to a file, diff(T, T) yields empty
operations, empty deleted_files and empty extra_files. -/
theorem diff_self_noop_without_symlinks (T : Tree)
    (hnd : (T.map Prod.fst).Nodup)
    (hns : ∀ p ∈ T, ∀ c, p.2 ≠ Entry.symlinkFile c) :
    (diff T T).operations = [] ∧ (diff T T).deleted_files = []
      ∧ (diff T T).extra_files = [] := by
  have hdel : deleted_of T T = [] := by
    apply List.filter_eq_nil_iff.mpr
    intro f hf
    simp [hf]
  have hext : extra_of T T = [] := hdel
  have hops : ops_of T T = [] := by
    unfold ops_of
    rw [hdel, hext]
    simp only [List.map_nil, List.flatMap_nil, List.nil_append]
    apply List.flatMap_eq_nil_iff.mpr
    intro f hfc
    have hfmem : f ∈ (scan_dir T).2 := List.mem_of_mem_filter hfc
    obtain ⟨e, hle, hfe, hme⟩ := lookup_of_mem_files T hnd f hfmem
    have hnotsym := hns (f, e) hme
    cases e with
    | file c =>
        rw [hle]
        simp [common_entry_ops, entryIsLink, entryIsDir, entryReadBytes,
          diff_common_file_self]
    | symlinkFile c => exact absurd rfl (hnotsym c)
    | dir ch => simp [entryIsFile] at hfe
    | symlinkDir => simp [entryIsFile] at hfe
    | other => simp [entryIsFile] at hfe
  exact ⟨hops, hdel, hext⟩

/-- C7 witness: the amended theorem applied to a concrete tree with a
regular file and a subdirectory. -/
theorem diff_self_noop_without_symlinks_witness :
    (diff [("a", Entry.file [1, 2, 3]), ("d", Entry.dir [("x", Entry.file [9])])]
        [("a", Entry.file [1, 2, 3]), ("d", Entry.dir [("x", Entry.file [9])])]).operations = []
    ∧ (diff [("a", Entry.file [1, 2, 3]), ("d", Entry.dir [("x", Entry.file [9])])]
        [("a", Entry.file [1, 2, 3]), ("d", Entry.dir [("x", Entry.file [9])])]).deleted_files = []
    ∧ (diff [("a", Entry.file [1, 2, 3]), ("d", Entry.dir [("x", Entry.file [9])])]
        [("a", Entry.file [1, 2, 3]), ("d", Entry.dir [("x", Entry.file [9])])]).extra_files = [] :=
  diff_self_noop_without_symlinks
    [("a", Entry.file [1, 2, 3]), ("d", Entry.dir [("x", Entry.file [9])])]
    (by decide)
    (by intro p hp c
        rcases List.mem_cons.mp hp with h | h
        · rw [h]; simp
        · rcases List.mem_cons.mp h with h2 | h2
          · rw [h2]; simp
          · simp at h2)

/-- C8.  diff compares only the immediate entries of the two roots:
replacing the children of every subdirectory on either side leaves the
entire Patch unchanged (so subdirectory contents contribute no
operations, deleted or extra entries), and entries that are neither
files nor directories are invisible to scan_dir. -/
theorem diff_ignores_subdirectory_contents :
    (∀ (c1 c2 : List (String × Entry)) (t1 t2 : Tree),
        diff (mapChildren c1 t1) (mapChildren c2 t2) = diff t1 t2)
    ∧ (∀ t : Tree,
        scan_dir (t.filter (fun p => entryIsDir p.2 || entryIsFile p.2))
          = scan_dir t) := by
  constructor
  · intro c1 c2 t1 t2
    have hx : (fun f => extra_entry_ops f (lookup (mapChildren c2 t2) f))
        = (fun f => extra_entry_ops f (lookup t2 f)) :=
      funext fun f => by rw [lookup_mapChildren]; exact extra_entry_ops_setChildren f c2 _
    have hc : (fun f => common_entry_ops f (lookup (mapChildren c1 t1) f)
          (lookup (mapChildren c2 t2) f))
        = (fun f => common_entry_ops f (lookup t1 f) (lookup t2 f)) :=
      funext fun f => by
        rw [lookup_mapChildren, lookup_mapChildren]
        exact common_entry_ops_setChildren f c1 c2 _ _
    unfold diff ops_of deleted_of extra_of common_of
    rw [scan_dir_mapChildren, scan_dir_mapChildren, hx, hc]
  · intro t
    induction t with
    | nil => rfl
    | cons p t ih =>
        obtain ⟨n, e⟩ := p
        by_cases hd : entryIsDir e = true
        · simp [List.filter_cons, scan_dir, hd, ih]
        · by_cases hf : entryIsFile e = true
          · simp [List.filter_cons, scan_dir, hd, hf, ih]
          · simp [List.filter_cons, scan_dir, hd, hf, ih]

/-- C9.  The applier writes staging output only for DATA and
BLOCK_RANGE operations - filtering every SYMLINK, DELETE and MKDIR
operation out of the list changes neither the staging contents, the
events nor the error behaviour - and the paths removed from the live
target are exactly those extra_files entries present there as a file,
a symlink or an empty directory. -/
theorem apply_writes_only_content_ops_and_removes_extra :
    (∀ (old_dir : Tree) (ops : List Operation) (st : StagingFiles),
        apply_operations_list old_dir ops st
          = apply_operations_list old_dir (ops.filter isContentOp) st)
    ∧ (∀ (fs : List String) (t : Tree) (removed : List String) (t' : Tree),
        fs.Nodup → delete_extra_files fs t = Except.ok (removed, t') →
        removed = fs.filter (wouldRemove t)) :=
  ⟨apply_ops_filter_content, delete_extra_removed⟩

/-- C9 witness: one SYMLINK operation is dropped without effect, and of
the extra paths "x" (present as a file) and "y" (absent) only "x" is
removed. -/
theorem apply_writes_only_content_ops_and_removes_extra_witness :
    apply_operations_list [] [mkSymlink "t"] []
      = apply_operations_list []
          ([mkSymlink "t"].filter isContentOp) []
    ∧ (["x"] : List String)
        = ["x", "y"].filter (wouldRemove [("x", Entry.file [1])]) :=
  ⟨apply_writes_only_content_ops_and_removes_extra.1 [] [mkSymlink "t"] [],
   apply_writes_only_content_ops_and_removes_extra.2 ["x", "y"]
     [("x", Entry.file [1])] ["x"] [] (by decide) rfl⟩

/-- C10.  Every successful apply_patch run is traced as: the staging
directory made by tempfile.mkdtemp in the system temporary location,
then the new_dirs creations and the staging writes, then the
removals of extra_files entries from the live target followed by the
rmtree of the live target, and only after all of those the move of the
staging directory into the target's place. -/
theorem apply_patch_finalization_order (p : Patch) (old_dir target_dir : Tree)
    (tr : List Event) (res : Tree)
    (h : apply_patch p old_dir target_dir = Except.ok (tr, res)) :
    ∃ (writes removes : List Event),
      tr = Event.mkdtempSystemTmp ::
          (p.new_dirs.map Event.mkStagingDir ++ writes ++ removes
            ++ [Event.rmtreeTarget, Event.moveStagingToTarget])
        ∧ (∀ e ∈ writes, ∃ pth d, e = Event.writeStaging pth d)
        ∧ (∀ e ∈ removes, ∃ pth, e = Event.removeTarget pth) := by
  unfold apply_patch at h
  cases h1 : apply_operations_list old_dir p.operations [] with
  | error err => rw [h1] at h; simp at h
  | ok r =>
      obtain ⟨st, writes⟩ := r
      rw [h1] at h
      cases h2 : delete_extra_files p.extra_files target_dir with
      | error err => rw [h2] at h; simp at h
      | ok r2 =>
          obtain ⟨removed, t2⟩ := r2
          rw [h2] at h
          simp only [Except.ok.injEq, Prod.mk.injEq] at h
          refine ⟨writes, removed.map Event.removeTarget, ?_, ?_, ?_⟩
          · rw [← h.1]
          · exact apply_ops_events_writes old_dir p.operations [] st writes h1
          · intro e he
            rcases List.mem_map.mp he with ⟨pth, _, hpe⟩
            exact ⟨pth, hpe.symm⟩

/-- C10 witness: the theorem applied to the empty patch, whose trace is
the staging creation followed immediately by rmtree and move. -/
theorem apply_patch_finalization_order_witness :
    ∃ (writes removes : List Event),
      ([Event.mkdtempSystemTmp, Event.rmtreeTarget,
          Event.moveStagingToTarget] : List Event)
        = Event.mkdtempSystemTmp ::
          ((Patch.mk [] [] [] [] []).new_dirs.map Event.mkStagingDir ++ writes
            ++ removes ++ [Event.rmtreeTarget, Event.moveStagingToTarget])
        ∧ (∀ e ∈ writes, ∃ pth d, e = Event.writeStaging pth d)
        ∧ (∀ e ∈ removes, ∃ pth, e = Event.removeTarget pth) :=
  apply_patch_finalization_order ⟨[], [], [], [], []⟩ [] []
    [Event.mkdtempSystemTmp, Event.rmtreeTarget, Event.moveStagingToTarget]
    [] rfl

end DiffPatch
